import Mathlib

/-!
Verification of the streaming-response reconstruction engine of the
agno-app repository. The definitions below are shallow embeddings of the
chat streaming code: the line-oriented frame decoder and the content-block
accumulator found in the chat page module, and the JSON bridge behaviour of
the api service. Strings are modelled as lists of characters; the stream is
modelled after UTF-8 decoding (the TextDecoder used by the code carries
split multi-byte sequences across chunks, so chunk boundaries at the
character level are the faithful abstraction). JSON.parse is a browser
builtin, not repository code, so payload parsing is passed in as an oracle
function where it matters.
-/

namespace AgnoStream

/-- Characters of a string literal. -/
def sl (s : String) : List Char := s.data

/-- Model of parsed JSON values. Numbers are approximated by integers;
no claim touches numeric payloads. -/
inductive Json where
  | null : Json
  | bool (b : Bool) : Json
  | num (n : Int) : Json
  | str (s : List Char) : Json
  | arr (xs : List Json) : Json
  | obj (fields : List (List Char × Json)) : Json

/-- Last-wins association lookup, matching property insertion order of
JSON.parse objects (a later duplicate key overwrites an earlier one). -/
def lookupLast (k : List Char) : List (List Char × Json) → Option Json
  | [] => none
  | (k', v) :: rest =>
    match lookupLast k rest with
    | some r => some r
    | none => if k' = k then some v else none

/-- Property access `j.k` on a parsed value: a field of an object, else
undefined (`none`). -/
def getField (j : Json) (k : List Char) : Option Json :=
  match j with
  | Json.obj fs => lookupLast k fs
  | _ => none

/-- JS truthiness of a defined value. -/
def truthy : Json → Bool
  | Json.null => false
  | Json.bool b => b
  | Json.num n => n != 0
  | Json.str s => !s.isEmpty
  | Json.arr _ => true
  | Json.obj _ => true

/-- Truthiness of a possibly undefined value (`if (x)` in JS). -/
def truthyOpt : Option Json → Bool
  | some v => truthy v
  | none => false

/-- Truthiness of `parsed.k`. -/
def truthyF (j : Json) (k : List Char) : Bool := truthyOpt (getField j k)

/-- JS string coercion used by `+=`; every claim only exercises the string
case, the rest is a coarse rendering. -/
def toStr : Json → List Char
  | Json.str s => s
  | Json.bool true => sl "true"
  | Json.bool false => sl "false"
  | Json.null => sl "null"
  | Json.num n => sl (toString n)
  | Json.arr _ => []
  | Json.obj _ => sl "[object Object]"

/-- Strict equality `===` between two values obtained from distinct
JSON.parse calls: undefined equals undefined, primitives compare by value,
and objects or arrays from distinct parses are distinct references. -/
def primEq : Json → Json → Bool
  | Json.null, Json.null => true
  | Json.bool a, Json.bool b => a == b
  | Json.num a, Json.num b => a == b
  | Json.str a, Json.str b => a == b
  | _, _ => false

/-- `===` lifted to possibly undefined values. -/
def eqJs : Option Json → Option Json → Bool
  | none, none => true
  | some a, some b => primEq a b
  | _, _ => false

/-- Content block of one assistant turn, as built by the chat page: the
tool fields hold whatever JSON values the payload carried (possibly
undefined). -/
inductive ContentBlock where
  | text (content : List Char) : ContentBlock
  | reasoning (content : List Char) (isCompleted : Bool) : ContentBlock
  | toolCall (id toolName toolArgs toolResult : Option Json)
      (isCompleted : Bool) : ContentBlock

/-- Accumulator state of the streaming loop: the finalized blocks plus the
two open buffers and the recorded session id. -/
structure AccState where
  sessionId : Option Json
  blocks : List ContentBlock
  openText : List Char
  openReasoning : List Char

/-- Initial accumulator state. -/
def acc0 : AccState := ⟨none, [], [], []⟩

/-- `flushTextBlock` from the chat page: push the open text buffer as a
finalized text block when it is non-empty. -/
def flushText (s : AccState) : AccState :=
  if s.openText.isEmpty then s
  else { s with blocks := s.blocks ++ [ContentBlock.text s.openText],
                openText := [] }

/-- Does a block match a ToolCallCompleted payload id (the source compares
`b.type === "tool_call" && b.id === parsed.tool.id`). -/
def matchTool (tid : Option Json) : ContentBlock → Bool
  | ContentBlock.toolCall bid _ _ _ _ => eqJs bid tid
  | _ => false

/-- Update the first matching tool block of an already reversed list,
mirroring `[...contentBlocks].reverse().find(...)` followed by the in-place
mutation of the found block. -/
def completeRev (tid tres : Option Json) : List ContentBlock → List ContentBlock
  | [] => []
  | b :: rest =>
    if matchTool tid b then
      (match b with
       | ContentBlock.toolCall bid nm args _ _ =>
          ContentBlock.toolCall bid nm args tres true
       | _ => b) :: rest
    else b :: completeRev tid tres rest

/-- Set `toolResult` and `isCompleted` on the most recent tool block whose
id matches, scanning from the end; no change when none matches. -/
def completeTool (tid tres : Option Json) (blocks : List ContentBlock) :
    List ContentBlock :=
  (completeRev tid tres blocks.reverse).reverse

/-- RunStarted branch: record the session id when the payload carries a
truthy one. -/
def runStartedH (s : AccState) (p : Json) : AccState :=
  if truthyF p (sl "sessionId") then
    { s with sessionId := getField p (sl "sessionId") }
  else s

/-- RunContent branch: append truthy content to the open text buffer. -/
def runContentH (s : AccState) (p : Json) : AccState :=
  if truthyF p (sl "content") then
    { s with openText :=
        s.openText ++ toStr ((getField p (sl "content")).getD Json.null) }
  else s

/-- ReasoningStep branch: append truthy reasoning content to the open
reasoning buffer. -/
def reasoningStepH (s : AccState) (p : Json) : AccState :=
  if truthyF p (sl "reasoningContent") then
    { s with openReasoning :=
        s.openReasoning ++
          toStr ((getField p (sl "reasoningContent")).getD Json.null) }
  else s

/-- ReasoningCompleted branch: push a completed reasoning block when the
buffer is non-empty, then clear it. -/
def reasoningCompletedH (s : AccState) : AccState :=
  if s.openReasoning.isEmpty then s
  else { s with
          blocks := s.blocks ++ [ContentBlock.reasoning s.openReasoning true],
          openReasoning := [] }

/-- ToolCallStarted branch: flush the text buffer, then push an incomplete
tool block when the payload carries a truthy tool object. -/
def toolCallStartedH (s : AccState) (p : Json) : AccState :=
  let s' := flushText s
  if truthyF p (sl "tool") then
    let tool := (getField p (sl "tool")).getD Json.null
    { s' with blocks := s'.blocks ++
        [ContentBlock.toolCall (getField tool (sl "id"))
          (getField tool (sl "toolName"))
          (getField tool (sl "toolArgs")) none false] }
  else s'

/-- ToolCallCompleted branch: complete the most recent matching tool
block. -/
def toolCallCompletedH (s : AccState) (p : Json) : AccState :=
  if truthyF p (sl "tool") then
    let tool := (getField p (sl "tool")).getD Json.null
    { s with blocks := completeTool (getField tool (sl "id"))
                         (getField tool (sl "toolResult")) s.blocks }
  else s

/-- RunCompleted branch: flush the text buffer and finalize a non-empty
reasoning buffer (which the source leaves uncleared here). -/
def runCompletedH (s : AccState) : AccState :=
  let s' := flushText s
  if s'.openReasoning.isEmpty then s'
  else { s' with
          blocks := s'.blocks ++
            [ContentBlock.reasoning s'.openReasoning true] }

/-- One step of the content-block accumulator: the event dispatch of the
streaming loop in the chat page, as a pure function of the state, the
current event name and the parsed payload. UI side effects (URL rewriting,
sidebar refresh, scheduling) do not touch this state and are omitted.
Event names without a branch in the source (including RunError and
SeedBlocks) leave the state unchanged, exactly as the source does. -/
def accStep (s : AccState) (ev : List Char) (p : Json) : AccState :=
  if ev = sl "RunStarted" then runStartedH s p
  else if ev = sl "RunContent" then runContentH s p
  else if ev = sl "ReasoningStarted" then flushText s
  else if ev = sl "ReasoningStep" then reasoningStepH s p
  else if ev = sl "ReasoningCompleted" then reasoningCompletedH s
  else if ev = sl "ToolCallStarted" then toolCallStartedH s p
  else if ev = sl "ToolCallCompleted" then toolCallCompletedH s p
  else if ev = sl "RunCompleted" then runCompletedH s
  else s

/-- Fold the accumulator over a list of (event name, parsed payload)
pairs from the initial state. -/
def runEvents (evs : List (List Char × Json)) : AccState :=
  evs.foldl (fun s p => accStep s p.1 p.2) acc0

/-- The renderable view published on every scheduled update: the content
expression of `updateAssistantMessage` in the chat page. -/
def view (s : AccState) : List ContentBlock :=
  if s.blocks.length > 0 then s.blocks
  else [ContentBlock.text (s.openText ++ s.openReasoning)]

/-- The view the specification describes for claim comparison: finalized
blocks with the provisional open-text and open-reasoning buffers appended
as non-final entries. Written from the words of the spec, to be measured
against `view`. -/
def claimedView (s : AccState) : List ContentBlock :=
  s.blocks
    ++ (if s.openText.isEmpty then [] else [ContentBlock.text s.openText])
    ++ (if s.openReasoning.isEmpty then []
        else [ContentBlock.reasoning s.openReasoning false])

/-! ### Frame decoder

The streaming loop keeps a pending-line buffer: each chunk is appended,
the buffer is split on newline, every complete line is handled and the
trailing incomplete line is held back (`buffer = lines.pop() || ""`).
The per-line handling is shared between the pair-emitting frame decoder
and the full pipeline, so the chunking machinery is parametric in the
handler applied to each complete line. -/

/-- JS `String.split("\n")`: the list of segments between newlines,
always non-empty. -/
def splitNl : List Char → List (List Char)
  | [] => [[]]
  | c :: cs =>
    if c = '\n' then [] :: splitNl cs
    else
      match splitNl cs with
      | [] => [[c]]
      | seg :: rest => (c :: seg) :: rest

/-- Decoder state around an inner handler state: the pending-line buffer
plus whatever the line handler accumulates. -/
structure DecState (σ : Type) where
  buffer : List Char
  inner : σ

/-- Process one chunk: append to the buffer, split on newline, handle every
complete line in order, hold back the trailing segment. -/
def processChunk (handle : σ → List Char → σ) (st : DecState σ)
    (chunk : List Char) : DecState σ :=
  let segs := splitNl (st.buffer ++ chunk)
  { buffer := segs.getLastD [],
    inner := segs.dropLast.foldl handle st.inner }

/-- Character-level restatement of the chunk loop: a newline hands the
buffered line to the handler, any other character is buffered. -/
def charStep (handle : σ → List Char → σ) (st : DecState σ) (c : Char) :
    DecState σ :=
  if c = '\n' then { buffer := [], inner := handle st.inner st.buffer }
  else { buffer := st.buffer ++ [c], inner := st.inner }

/-- Feed a sequence of chunks through the decoder. -/
def feedAll (handle : σ → List Char → σ) (st : DecState σ)
    (chunks : List (List Char)) : DecState σ :=
  chunks.foldl (processChunk handle) st

/-- JS whitespace test used by `trim` (the characters that occur on event
stream lines). -/
def isWs (c : Char) : Bool := c.isWhitespace

/-- JS `String.trim`. -/
def trim (xs : List Char) : List Char :=
  ((xs.dropWhile isWs).reverse.dropWhile isWs).reverse

/-- `line.startsWith(p)`. -/
def hasPfx : List Char → List Char → Bool
  | [], _ => true
  | _ :: _, [] => false
  | p :: ps, x :: xs => p == x && hasPfx ps xs

/-- State of the pair-emitting frame decoder: the persistent current event
name and the ordered (eventName, payload) pairs dispatched so far. -/
structure FrameState where
  currentEvent : List Char
  events : List (List Char × List Char)

/-- Initial frame state. -/
def frame0 : FrameState := ⟨[], []⟩

/-- Per-line body of the streaming loop, viewed as the frame decoder: skip
blank lines, record the current event name from `event: ` lines, and emit
an (eventName, rawPayload) pair for each non-sentinel `data: ` line. -/
def frameHandle (st : FrameState) (line : List Char) : FrameState :=
  if (trim line).isEmpty then st
  else if hasPfx (sl "event: ") line then
    { st with currentEvent := trim (line.drop 7) }
  else if hasPfx (sl "data: ") line then
    let d := line.drop 6
    if d = sl "[DONE]" then st
    else { st with events := st.events ++ [(st.currentEvent, d)] }
  else st

/-- Run the frame decoder over a list of chunks from the start state. -/
def decodeChunks (chunks : List (List Char)) : FrameState :=
  (feedAll frameHandle ⟨[], frame0⟩ chunks).inner

/-! ### Full pipeline: decoder, JSON parse, accumulator

The payload of each `data: ` line is parsed with JSON.parse inside a
try/catch; on failure the line is logged and skipped. JSON.parse is a
browser builtin, so it enters the model as an oracle argument. -/

/-- Inner state of the full pipeline. -/
structure PipeState where
  currentEvent : List Char
  acc : AccState

/-- Initial pipeline state. -/
def pipe0 : PipeState := ⟨[], acc0⟩

/-- Per-line body of the streaming loop with the accumulator attached:
identical line discipline, with each parsed `data: ` payload dispatched to
`accStep` and each unparsable payload skipped (the catch branch only
logs). -/
def pipeHandle (parse : List Char → Option Json) (st : PipeState)
    (line : List Char) : PipeState :=
  if (trim line).isEmpty then st
  else if hasPfx (sl "event: ") line then
    { st with currentEvent := trim (line.drop 7) }
  else if hasPfx (sl "data: ") line then
    let d := line.drop 6
    if d = sl "[DONE]" then st
    else
      match parse d with
      | some j => { st with acc := accStep st.acc st.currentEvent j }
      | none => st
  else st

/-! ### Specification-level accumulator for continuation and error events

Modelled from the spec: the continuation-capable accumulator of section
4.2 whose implementation file is not under src/. Only its collaborators
are in src/: the api service emits `RunError` events and closes the stream
on them, `continueMessage` starts a continuation stream, and the chat
panel consumes a hook exposing continue/retry/edit/stop handlers. The
transition table is taken verbatim from the spec: `SeedBlocks` replaces
the block list wholesale and clears the open buffers; `RunContent`
re-opens a trailing finalized text block when the open-text buffer is
empty; `RunCompleted`/`RunError` flush open text, finalize open reasoning
as completed, and `RunError` appends an error block carrying the
backend-supplied error text. -/

/-- Spec-level content block (closed variant set of section 3). -/
inductive SBlock where
  | text (content : List Char) : SBlock
  | reasoning (content : List Char) (isCompleted : Bool) : SBlock
  | toolCall (id toolName : List Char)
      (toolArgs : List (List Char × List Char))
      (toolResult : Option (List Char)) (isCompleted : Bool) : SBlock
  | error (content : List Char) : SBlock

/-- Spec-level typed events (section 6 table). -/
inductive SpecEvent where
  | runStarted (sessionId : List Char) : SpecEvent
  | assistantMessageId (mid : List Char) : SpecEvent
  | seedBlocks (bs : List SBlock) : SpecEvent
  | runContent (c : List Char) : SpecEvent
  | reasoningStarted : SpecEvent
  | reasoningStep (rc : List Char) : SpecEvent
  | reasoningCompleted : SpecEvent
  | toolCallStarted (id nm : List Char)
      (args : List (List Char × List Char)) : SpecEvent
  | toolCallCompleted (id : List Char) (res : List Char) : SpecEvent
  | runCompleted : SpecEvent
  | runError (msg : List Char) : SpecEvent

/-- Spec-level accumulator state. -/
structure SpecState where
  sessionId : Option (List Char)
  messageId : Option (List Char)
  blocks : List SBlock
  openText : List Char
  openReasoning : List Char

/-- Initial spec-level state. -/
def spec0 : SpecState := ⟨none, none, [], [], []⟩

/-- Flush the open text buffer into a finalized text block if non-empty. -/
def sFlush (s : SpecState) : SpecState :=
  if s.openText.isEmpty then s
  else { s with blocks := s.blocks ++ [SBlock.text s.openText],
                openText := [] }

/-- Finalize a still-open reasoning buffer as a completed reasoning
block. -/
def sCloseReasoning (s : SpecState) : SpecState :=
  if s.openReasoning.isEmpty then s
  else { s with
          blocks := s.blocks ++ [SBlock.reasoning s.openReasoning true],
          openReasoning := [] }

/-- Update the first matching tool block of a reversed spec-block list. -/
def sCompleteRev (tid res : List Char) : List SBlock → List SBlock
  | [] => []
  | b :: rest =>
    match b with
    | SBlock.toolCall bid nm args _ _ =>
      if bid = tid then SBlock.toolCall bid nm args (some res) true :: rest
      else b :: sCompleteRev tid res rest
    | _ => b :: sCompleteRev tid res rest

/-- Modelled from the spec: one transition of the section 4.2 accumulator,
covering the `SeedBlocks`, `RunError` and text re-open behaviour whose
implementation is missing from src/. -/
def specStep (s : SpecState) : SpecEvent → SpecState
  | SpecEvent.runStarted sid => { s with sessionId := some sid }
  | SpecEvent.assistantMessageId mid => { s with messageId := some mid }
  | SpecEvent.seedBlocks bs =>
    { s with blocks := bs, openText := [], openReasoning := [] }
  | SpecEvent.runContent c =>
    if s.openText.isEmpty then
      match s.blocks.getLast? with
      | some (SBlock.text t) =>
        { s with blocks := s.blocks.dropLast, openText := t ++ c }
      | _ => { s with openText := s.openText ++ c }
    else { s with openText := s.openText ++ c }
  | SpecEvent.reasoningStarted => sFlush s
  | SpecEvent.reasoningStep rc =>
    { s with openReasoning := s.openReasoning ++ rc }
  | SpecEvent.reasoningCompleted => sCloseReasoning s
  | SpecEvent.toolCallStarted tid nm args =>
    let s' := sFlush s
    { s' with blocks := s'.blocks ++ [SBlock.toolCall tid nm args none false] }
  | SpecEvent.toolCallCompleted tid res =>
    { s with blocks := (sCompleteRev tid res s.blocks.reverse).reverse }
  | SpecEvent.runCompleted => sCloseReasoning (sFlush s)
  | SpecEvent.runError msg =>
    let s' := sCloseReasoning (sFlush s)
    { s' with blocks := s'.blocks ++ [SBlock.error msg] }

/-- Fold the spec-level accumulator from the initial state. -/
def specRun (evs : List SpecEvent) : SpecState :=
  evs.foldl specStep spec0

/-! ### Chunk-boundary invariance of the decoder -/

theorem splitNl_ne_nil (xs : List Char) : splitNl xs ≠ [] := by
  cases xs with
  | nil => simp [splitNl]
  | cons c cs =>
    unfold splitNl
    split
    · simp
    · cases h : splitNl cs <;> simp

theorem splitNl_of_no_nl {xs : List Char} (h : '\n' ∉ xs) :
    splitNl xs = [xs] := by
  induction xs with
  | nil => rfl
  | cons c cs ih =>
    have hc : c ≠ '\n' := fun e => h (e ▸ List.mem_cons_self c cs)
    have hcs : '\n' ∉ cs := fun e => h (List.mem_cons_of_mem c e)
    unfold splitNl
    rw [if_neg hc, ih hcs]

theorem splitNl_append_nl {xs : List Char} (ys : List Char)
    (h : '\n' ∉ xs) : splitNl (xs ++ '\n' :: ys) = xs :: splitNl ys := by
  induction xs with
  | nil => simp [splitNl]
  | cons c cs ih =>
    have hc : c ≠ '\n' := fun e => h (e ▸ List.mem_cons_self c cs)
    have hcs : '\n' ∉ cs := fun e => h (List.mem_cons_of_mem c e)
    rw [List.cons_append]
    conv_lhs => unfold splitNl
    rw [if_neg hc, ih hcs]

theorem splitNl_no_nl : ∀ (xs : List Char), ∀ s ∈ splitNl xs, '\n' ∉ s := by
  intro xs
  induction xs with
  | nil => intro s hs; simp [splitNl] at hs; simp [hs]
  | cons c cs ih =>
    intro s hs
    unfold splitNl at hs
    by_cases hc : c = '\n'
    · rw [if_pos hc] at hs
      rcases List.mem_cons.mp hs with h | h
      · simp [h]
      · exact ih s h
    · rw [if_neg hc] at hs
      cases hsp : splitNl cs with
      | nil => exact absurd hsp (splitNl_ne_nil cs)
      | cons seg rest =>
        rw [hsp] at hs
        rcases List.mem_cons.mp hs with h | h
        · subst h
          intro hmem
          rcases List.mem_cons.mp hmem with h | h
          · exact hc h.symm
          · exact ih seg (hsp ▸ List.mem_cons_self seg rest) h
        · exact ih s (hsp ▸ List.mem_cons_of_mem seg h)

theorem getLastD_mem {α : Type} : ∀ (l : List α) (d : α), l ≠ [] →
    l.getLastD d ∈ l := by
  intro l
  induction l with
  | nil => intro d h; exact absurd rfl h
  | cons a l ih =>
    intro d _
    cases l with
    | nil => simp [List.getLastD]
    | cons b m =>
      rw [List.getLastD_cons]
      exact List.mem_cons_of_mem a (ih a (by simp))

theorem buffer_no_nl (xs : List Char) :
    '\n' ∉ (splitNl xs).getLastD [] :=
  splitNl_no_nl xs _ (getLastD_mem _ _ (splitNl_ne_nil xs))

theorem processChunk_eq_foldl {σ : Type} (handle : σ → List Char → σ) :
    ∀ (chunk : List Char) (st : DecState σ), '\n' ∉ st.buffer →
      processChunk handle st chunk = chunk.foldl (charStep handle) st := by
  intro chunk
  induction chunk with
  | nil =>
    intro st h
    simp [processChunk, splitNl_of_no_nl h]
  | cons c cs ih =>
    intro st h
    by_cases hc : c = '\n'
    · subst hc
      have hsp := splitNl_append_nl cs h
      have hne := splitNl_ne_nil cs
      have lhs_eq : processChunk handle st ('\n' :: cs) =
          processChunk handle ⟨[], handle st.inner st.buffer⟩ cs := by
        simp only [processChunk, hsp, List.nil_append]
        cases hsp2 : splitNl cs with
        | nil => exact absurd hsp2 hne
        | cons seg rest =>
          simp [List.getLastD_cons, List.dropLast]
      rw [lhs_eq, ih _ (by simp)]
      simp [charStep]
    · have hbuf : '\n' ∉ st.buffer ++ [c] := by
        intro hmem
        rcases List.mem_append.mp hmem with h1 | h1
        · exact h h1
        · simp at h1; exact hc h1.symm
      have lhs_eq : processChunk handle st (c :: cs) =
          processChunk handle ⟨st.buffer ++ [c], st.inner⟩ cs := by
        unfold processChunk
        rw [List.append_cons]
      rw [lhs_eq, ih _ hbuf]
      simp [charStep, if_neg hc]

theorem processChunk_no_nl {σ : Type} (handle : σ → List Char → σ)
    (st : DecState σ) (chunk : List Char) :
    '\n' ∉ (processChunk handle st chunk).buffer := by
  simp only [processChunk]
  exact buffer_no_nl _

theorem feedAll_eq_flatten {σ : Type} (handle : σ → List Char → σ) :
    ∀ (chunks : List (List Char)) (st : DecState σ), '\n' ∉ st.buffer →
      feedAll handle st chunks = processChunk handle st chunks.flatten := by
  intro chunks
  induction chunks with
  | nil =>
    intro st h
    have := processChunk_eq_foldl handle [] st h
    simp [feedAll, List.flatten, this]
  | cons a as ih =>
    intro st h
    have h1 : feedAll handle st (a :: as) =
        feedAll handle (processChunk handle st a) as := by
      simp [feedAll]
    rw [h1, ih _ (processChunk_no_nl handle st a)]
    rw [processChunk_eq_foldl handle as.flatten _ (processChunk_no_nl handle st a)]
    rw [processChunk_eq_foldl handle a st h]
    rw [show (a :: as).flatten = a ++ as.flatten from rfl]
    rw [processChunk_eq_foldl handle (a ++ as.flatten) st h]
    rw [List.foldl_append]

/-- Claim C3: for every stream of characters and every way of cutting it
into chunks, the frame decoder emits the same ordered sequence of
(eventName, payload) pairs as decoding the whole stream as one chunk: the
pending-line buffer carries a line split by a chunk boundary into the next
chunk, so the boundary never alters, duplicates, or drops an event. -/
theorem claim_C3_chunk_invariance (chunks : List (List Char)) :
    feedAll frameHandle ⟨[], frame0⟩ chunks =
      processChunk frameHandle ⟨[], frame0⟩ chunks.flatten
    ∧ (decodeChunks chunks).events = (decodeChunks [chunks.flatten]).events := by
  have h := feedAll_eq_flatten frameHandle chunks ⟨[], frame0⟩ (by simp)
  refine ⟨h, ?_⟩
  simp only [decodeChunks, h]
  simp [feedAll]

/-! ### Text accumulation -/

/-- A RunContent payload carrying the given content string. -/
def objContent (c : List Char) : Json := Json.obj [(sl "content", Json.str c)]

theorem runContent_eq (s : AccState) (c : List Char) :
    accStep s (sl "RunContent") (objContent c) =
      if truthy (Json.str c) then
        { s with openText := s.openText ++ toStr (Json.str c) }
      else s := rfl

/-- The first example event sequence of the spec. -/
def exC1 : List (List Char × Json) :=
  [(sl "RunStarted", Json.obj [(sl "sessionId", Json.str (sl "s1"))]),
   (sl "RunContent", objContent (sl "Hel")),
   (sl "RunContent", objContent (sl "lo")),
   (sl "RunCompleted", Json.obj [])]

/-- Claim C1: two consecutive RunContent events with no intervening flush
append into the same open text buffer — handling them in sequence equals
handling one RunContent carrying the concatenated content, so they can
never give two adjacent text blocks — and the spec example RunStarted,
RunContent "Hel", RunContent "lo", RunCompleted ends with the single
block list holding the text block "Hello". -/
theorem claim_C1_text_contiguity :
    (∀ (s : AccState) (a b : List Char),
      accStep (accStep s (sl "RunContent") (objContent a))
          (sl "RunContent") (objContent b) =
        accStep s (sl "RunContent") (objContent (a ++ b)))
    ∧ (runEvents exC1).blocks = [ContentBlock.text (sl "Hello")] := by
  constructor
  · intro s a b
    rw [runContent_eq, runContent_eq, runContent_eq]
    cases a <;> cases b <;> simp [truthy, toStr, List.append_assoc]
  · rfl

/-- Claim C6 (amended): the RunContent handler appends the payload content
to the open text buffer and leaves the finalized block list untouched; it
never pops a trailing text block back into the buffer. -/
theorem claim_C6_amended (s : AccState) (c : List Char) :
    (accStep s (sl "RunContent") (objContent c)).blocks = s.blocks
    ∧ (accStep s (sl "RunContent") (objContent c)).openText = s.openText ++ c := by
  rw [runContent_eq]
  cases c <;> simp [truthy, toStr]

/-- A state with an empty open-text buffer whose last finalized block is a
text block, as reached after RunContent "A" then ReasoningStarted. -/
def exC6state : AccState := ⟨none, [ContentBlock.text (sl "A")], [], []⟩

/-- RunContent events separated by a ReasoningStarted flush that produced
no reasoning block. -/
def exC6run : List (List Char × Json) :=
  [(sl "RunContent", objContent (sl "A")),
   (sl "ReasoningStarted", Json.obj []),
   (sl "RunContent", objContent (sl "B")),
   (sl "RunCompleted", Json.obj [])]

/-- Claim C6 is false of the code: in a state with empty open-text buffer
and a trailing finalized text block "A", RunContent "B" does not pop the
block back into the buffer, and the run RunContent "A", ReasoningStarted,
RunContent "B", RunCompleted finalizes two adjacent text blocks. -/
theorem claim_C6_counterexample :
    ¬ ((accStep exC6state (sl "RunContent") (objContent (sl "B"))).blocks = []
       ∧ (accStep exC6state (sl "RunContent") (objContent (sl "B"))).openText
           = sl "A" ++ sl "B")
    ∧ (runEvents exC6run).blocks
        = [ContentBlock.text (sl "A"), ContentBlock.text (sl "B")] := by
  constructor
  · intro hcl
    have hb : (accStep exC6state (sl "RunContent") (objContent (sl "B"))).blocks
        = [ContentBlock.text (sl "A")] := rfl
    rw [hb] at hcl
    exact List.cons_ne_nil _ _ hcl.1
  · rfl

/-! ### Tool-call completion -/

theorem completeRev_append (tid tres : Option Json) :
    ∀ (zs : List ContentBlock), (∀ b ∈ zs, matchTool tid b = false) →
    ∀ (bid nm args old : Option Json) (fin : Bool) (ws : List ContentBlock),
      eqJs bid tid = true →
      completeRev tid tres (zs ++ ContentBlock.toolCall bid nm args old fin :: ws)
        = zs ++ ContentBlock.toolCall bid nm args tres true :: ws := by
  intro zs
  induction zs with
  | nil =>
    intro _ bid nm args old fin ws hb
    simp [completeRev, matchTool, hb]
  | cons z zs ih =>
    intro hz bid nm args old fin ws hb
    have hzf : matchTool tid z = false := hz z (List.mem_cons_self z zs)
    have hrest : ∀ b ∈ zs, matchTool tid b = false :=
      fun b hbm => hz b (List.mem_cons_of_mem z hbm)
    simp only [List.cons_append, completeRev, hzf]
    simp [ih hrest bid nm args old fin ws hb]

/-- The second example event sequence of the spec. -/
def exC2 : List (List Char × Json) :=
  [(sl "ToolCallStarted",
    Json.obj [(sl "tool",
      Json.obj [(sl "id", Json.str (sl "t1")),
                (sl "toolName", Json.str (sl "search")),
                (sl "toolArgs", Json.obj [])])]),
   (sl "ToolCallCompleted",
    Json.obj [(sl "tool",
      Json.obj [(sl "id", Json.str (sl "t1")),
                (sl "toolResult", Json.str (sl "42"))])]),
   (sl "RunCompleted", Json.obj [])]

/-- Claim C2: ToolCallCompleted updates the most recent tool block whose id
matches the payload id — every block after it mismatches, it receives the
payload result and completes, and all surrounding blocks stay unchanged —
and the spec example run ends with the single completed search block
carrying the result 42 (with its toolName and toolArgs as started). -/
theorem claim_C2_tool_completion :
    (∀ (xs ys : List ContentBlock) (bid nm args old : Option Json) (fin : Bool)
        (tid tres : Option Json),
      eqJs bid tid = true →
      (∀ b ∈ ys, matchTool tid b = false) →
      completeTool tid tres (xs ++ ContentBlock.toolCall bid nm args old fin :: ys)
        = xs ++ ContentBlock.toolCall bid nm args tres true :: ys)
    ∧ (runEvents exC2).blocks
        = [ContentBlock.toolCall (some (Json.str (sl "t1")))
            (some (Json.str (sl "search"))) (some (Json.obj []))
            (some (Json.str (sl "42"))) true] := by
  constructor
  · intro xs ys bid nm args old fin tid tres hb hy
    unfold completeTool
    have hrev : (xs ++ ContentBlock.toolCall bid nm args old fin :: ys).reverse
        = ys.reverse ++ ContentBlock.toolCall bid nm args old fin :: xs.reverse := by
      simp
    rw [hrev]
    have hyr : ∀ b ∈ ys.reverse, matchTool tid b = false :=
      fun b hbm => hy b (List.mem_reverse.mp hbm)
    rw [completeRev_append tid tres ys.reverse hyr bid nm args old fin xs.reverse hb]
    simp
  · rfl

/-- Witness for claim C2 at a concrete block list and payload. -/
theorem claim_C2_witness :
    eqJs (some (Json.str (sl "t1"))) (some (Json.str (sl "t1"))) = true
    ∧ completeTool (some (Json.str (sl "t1"))) (some (Json.str (sl "42")))
        [ContentBlock.toolCall (some (Json.str (sl "t1"))) none none none false]
      = [ContentBlock.toolCall (some (Json.str (sl "t1"))) none none
          (some (Json.str (sl "42"))) true] :=
  ⟨rfl,
   claim_C2_tool_completion.1 [] [] (some (Json.str (sl "t1"))) none none none
     false (some (Json.str (sl "t1"))) (some (Json.str (sl "42"))) rfl
     (fun b hb => absurd hb (List.not_mem_nil b))⟩

/-! ### The published view -/

/-- A prefix leaving a finalized text block and a non-empty open text
buffer. -/
def exC7evs : List (List Char × Json) :=
  [(sl "RunContent", objContent (sl "A")),
   (sl "ReasoningStarted", Json.obj []),
   (sl "RunContent", objContent (sl "B"))]

/-- Claim C7 is false of the code: after the prefix RunContent "A",
ReasoningStarted, RunContent "B", the published view is just the finalized
blocks and omits the non-empty open text buffer "B", differing from the
view the spec describes. -/
theorem claim_C7_counterexample :
    view (runEvents exC7evs) ≠ claimedView (runEvents exC7evs)
    ∧ view (runEvents exC7evs) = [ContentBlock.text (sl "A")]
    ∧ (runEvents exC7evs).openText = sl "B" := by
  refine ⟨?_, rfl, rfl⟩
  have h1 : view (runEvents exC7evs) = [ContentBlock.text (sl "A")] := rfl
  have h2 : claimedView (runEvents exC7evs)
      = [ContentBlock.text (sl "A"), ContentBlock.text (sl "B")] := rfl
  rw [h1, h2]
  simp

/-- Claim C7 (amended): the published view equals the finalized block list
whenever any finalized block exists — open buffers are then not shown —
and only while no block has been finalized is the view a single
provisional text entry holding the open text and reasoning buffers. -/
theorem claim_C7_amended (s : AccState) :
    (s.blocks ≠ [] → view s = s.blocks)
    ∧ (s.blocks = [] →
        view s = [ContentBlock.text (s.openText ++ s.openReasoning)]) := by
  constructor
  · intro h
    simp [view, List.length_pos.mpr h]
  · intro h
    simp [view, h]

/-- Witness for the amended claim C7 at the counterexample prefix. -/
theorem claim_C7_witness :
    (runEvents exC7evs).blocks ≠ []
    ∧ view (runEvents exC7evs) = (runEvents exC7evs).blocks := by
  have hne : (runEvents exC7evs).blocks ≠ [] := by
    rw [show (runEvents exC7evs).blocks = [ContentBlock.text (sl "A")] from rfl]
    exact List.cons_ne_nil _ _
  exact ⟨hne, (claim_C7_amended (runEvents exC7evs)).1 hne⟩

/-! ### Non-final blocks -/

/-- Is a reasoning block completed (vacuously true for other blocks). -/
def reasoningFinal : ContentBlock → Bool
  | ContentBlock.reasoning _ fin => fin
  | _ => true

/-- Is a block final: text blocks always are, reasoning and tool blocks by
their completion flag. -/
def blockFinal : ContentBlock → Bool
  | ContentBlock.text _ => true
  | ContentBlock.reasoning _ fin => fin
  | ContentBlock.toolCall _ _ _ _ fin => fin

/-- Two tool calls started with no completion in between. -/
def exC8evs : List (List Char × Json) :=
  [(sl "ToolCallStarted",
    Json.obj [(sl "tool", Json.obj [(sl "id", Json.str (sl "t1"))])]),
   (sl "ToolCallStarted",
    Json.obj [(sl "tool", Json.obj [(sl "id", Json.str (sl "t2"))])])]

/-- Claim C8 is false of the code: two ToolCallStarted events before their
completions leave two blocks with isCompleted false, so more than one
block of the accumulated sequence is non-final. -/
theorem claim_C8_counterexample :
    ((runEvents exC8evs).blocks.countP (fun b => !blockFinal b)) = 2
    ∧ ¬ (((runEvents exC8evs).blocks.countP (fun b => !blockFinal b)) ≤ 1) := by
  refine ⟨rfl, ?_⟩
  intro h
  rw [show ((runEvents exC8evs).blocks.countP (fun b => !blockFinal b)) = 2
        from rfl] at h
  omega

theorem flushText_rf (s : AccState) (h : s.blocks.all reasoningFinal = true) :
    (flushText s).blocks.all reasoningFinal = true := by
  unfold flushText
  split
  · exact h
  · simp [List.all_append, h, reasoningFinal]

theorem completeRev_rf (tid tres : Option Json) :
    ∀ (l : List ContentBlock), l.all reasoningFinal = true →
      (completeRev tid tres l).all reasoningFinal = true := by
  intro l
  induction l with
  | nil => intro h; exact h
  | cons b rest ih =>
    intro h
    simp only [List.all_cons, Bool.and_eq_true] at h
    unfold completeRev
    split
    · simp only [List.all_cons, Bool.and_eq_true]
      refine ⟨?_, h.2⟩
      cases b <;> simp_all [reasoningFinal]
    · simp only [List.all_cons, Bool.and_eq_true]
      exact ⟨h.1, ih h.2⟩

theorem completeTool_rf (tid tres : Option Json) (l : List ContentBlock)
    (h : l.all reasoningFinal = true) :
    (completeTool tid tres l).all reasoningFinal = true := by
  unfold completeTool
  rw [List.all_reverse]
  exact completeRev_rf tid tres l.reverse (by rw [List.all_reverse]; exact h)

theorem runStartedH_rf (s : AccState) (p : Json)
    (h : s.blocks.all reasoningFinal = true) :
    (runStartedH s p).blocks.all reasoningFinal = true := by
  unfold runStartedH
  split <;> exact h

theorem runContentH_rf (s : AccState) (p : Json)
    (h : s.blocks.all reasoningFinal = true) :
    (runContentH s p).blocks.all reasoningFinal = true := by
  unfold runContentH
  split <;> exact h

theorem reasoningStepH_rf (s : AccState) (p : Json)
    (h : s.blocks.all reasoningFinal = true) :
    (reasoningStepH s p).blocks.all reasoningFinal = true := by
  unfold reasoningStepH
  split <;> exact h

theorem reasoningCompletedH_rf (s : AccState)
    (h : s.blocks.all reasoningFinal = true) :
    (reasoningCompletedH s).blocks.all reasoningFinal = true := by
  unfold reasoningCompletedH
  split
  · exact h
  · simp [List.all_append, h, reasoningFinal]

theorem toolCallStartedH_rf (s : AccState) (p : Json)
    (h : s.blocks.all reasoningFinal = true) :
    (toolCallStartedH s p).blocks.all reasoningFinal = true := by
  unfold toolCallStartedH
  dsimp only
  split
  · simp [List.all_append, flushText_rf s h, reasoningFinal]
  · exact flushText_rf s h

theorem toolCallCompletedH_rf (s : AccState) (p : Json)
    (h : s.blocks.all reasoningFinal = true) :
    (toolCallCompletedH s p).blocks.all reasoningFinal = true := by
  unfold toolCallCompletedH
  split
  · exact completeTool_rf _ _ _ h
  · exact h

theorem runCompletedH_rf (s : AccState)
    (h : s.blocks.all reasoningFinal = true) :
    (runCompletedH s).blocks.all reasoningFinal = true := by
  unfold runCompletedH
  dsimp only
  split
  · exact flushText_rf s h
  · simp [List.all_append, flushText_rf s h, reasoningFinal]

theorem accStep_rf (s : AccState) (n : List Char) (p : Json)
    (h : s.blocks.all reasoningFinal = true) :
    ((accStep s n p).blocks.all reasoningFinal) = true := by
  unfold accStep
  repeat' split
  all_goals first
    | exact h
    | exact runStartedH_rf s p h
    | exact runContentH_rf s p h
    | exact flushText_rf s h
    | exact reasoningStepH_rf s p h
    | exact reasoningCompletedH_rf s h
    | exact toolCallStartedH_rf s p h
    | exact toolCallCompletedH_rf s p h
    | exact runCompletedH_rf s h

/-- Claim C8 (amended): there is a single open-text buffer, so at most one
text block is ever open, and every finalized reasoning block is completed
— reasoning blocks are only pushed with isCompleted true — but several
tool blocks can be simultaneously incomplete while their completions are
pending, so the overall at-most-one-non-final bound does not hold. -/
theorem claim_C8_amended (evs : List (List Char × Json)) :
    ((runEvents evs).blocks.all reasoningFinal) = true := by
  suffices h : ∀ (s : AccState), s.blocks.all reasoningFinal = true →
      ((evs.foldl (fun s p => accStep s p.1 p.2) s).blocks.all reasoningFinal)
        = true from h acc0 rfl
  induction evs with
  | nil => intro s h; exact h
  | cons e rest ih =>
    intro s h
    exact ih _ (accStep_rf s e.1 e.2 h)

/-! ### RunError and SeedBlocks on the spec-level accumulator -/

/-- Claim C4: on RunError the engine flushes the open text buffer,
finalizes a still-open reasoning buffer as a completed reasoning block,
and appends an error block carrying the backend-supplied error text; the
run RunContent "Hi", ReasoningStep "mull", RunError "boom" ends with
exactly those three blocks. -/
theorem claim_C4_run_error (s : SpecState) (msg : List Char) :
    (specStep s (SpecEvent.runError msg)).blocks =
      s.blocks
      ++ (if s.openText.isEmpty then [] else [SBlock.text s.openText])
      ++ (if s.openReasoning.isEmpty then []
          else [SBlock.reasoning s.openReasoning true])
      ++ [SBlock.error msg]
    ∧ (specStep s (SpecEvent.runError msg)).openText = []
    ∧ (specStep s (SpecEvent.runError msg)).openReasoning = []
    ∧ (specRun [SpecEvent.runContent (sl "Hi"),
                SpecEvent.reasoningStep (sl "mull"),
                SpecEvent.runError (sl "boom")]).blocks
        = [SBlock.text (sl "Hi"), SBlock.reasoning (sl "mull") true,
           SBlock.error (sl "boom")] := by
  refine ⟨?_, ?_, ?_, rfl⟩ <;>
  · simp only [specStep, sFlush, sCloseReasoning]
    split_ifs <;> simp_all [List.append_assoc]

/-- Claim C5: SeedBlocks replaces the block list wholesale with the
payload blocks and clears both open buffers, and a continuation seeded
with the text block "Hello" followed by RunContent " world" and the final
flush produces the single text block "Hello world" — the resumed run
appends to the seeded text instead of restarting. -/
theorem claim_C5_seed_blocks :
    (∀ (s : SpecState) (bs : List SBlock),
      specStep s (SpecEvent.seedBlocks bs) =
        { s with blocks := bs, openText := [], openReasoning := [] })
    ∧ (specRun [SpecEvent.seedBlocks [SBlock.text (sl "Hello")],
                SpecEvent.runContent (sl " world"),
                SpecEvent.runCompleted]).blocks
        = [SBlock.text (sl "Hello world")] :=
  ⟨fun _ _ => rfl, rfl⟩

/-! ### Malformed data lines -/

theorem dropWhile_append_last_ne (c : Char) (h : isWs c = false) :
    ∀ (ys : List Char), List.dropWhile isWs (ys ++ [c]) ≠ [] := by
  intro ys
  induction ys with
  | nil => simp [List.dropWhile, h]
  | cons y ys ih =>
    rw [List.cons_append, List.dropWhile_cons]
    split
    · exact ih
    · simp

theorem trim_data_ne (rest : List Char) :
    (trim (sl "data: " ++ rest)).isEmpty = false := by
  have h0 : sl "data: " ++ rest = 'd' :: (sl "ata: " ++ rest) := rfl
  rw [h0]
  unfold trim
  rw [List.dropWhile_cons, if_neg (by decide), List.reverse_cons]
  have h1 := dropWhile_append_last_ne 'd' (by decide)
    (sl "ata: " ++ rest).reverse
  cases h2 : List.dropWhile isWs ((sl "ata: " ++ rest).reverse ++ ['d']) with
  | nil => exact absurd h2 h1
  | cons a l => simp

theorem pipe_skip (parse : List Char → Option Json) (st : PipeState)
    (rest : List Char) (h : parse rest = none) :
    pipeHandle parse st (sl "data: " ++ rest) = st := by
  have htrim := trim_data_ne rest
  have hev : hasPfx (sl "event: ") (sl "data: " ++ rest) = false := rfl
  have hda : hasPfx (sl "data: ") (sl "data: " ++ rest) = true := rfl
  have hdrop : (sl "data: " ++ rest).drop 6 = rest := rfl
  simp only [pipeHandle, htrim, hev, hda, hdrop, Bool.false_eq_true,
    if_false, if_true]
  by_cases hdone : rest = sl "[DONE]"
  · simp [hdone]
  · simp [hdone, h]

/-- Claim C10: a data line whose body fails JSON parsing is skipped whole —
it leaves the pipeline state (current event name and accumulator state)
unchanged, the stream keeps being processed, and the fold over any
surrounding lines equals the fold with the malformed line removed. -/
theorem claim_C10_malformed_skip (parse : List Char → Option Json)
    (st : PipeState) (pre post : List (List Char)) (rest : List Char)
    (h : parse rest = none) :
    pipeHandle parse st (sl "data: " ++ rest) = st
    ∧ List.foldl (pipeHandle parse) st (pre ++ (sl "data: " ++ rest) :: post)
      = List.foldl (pipeHandle parse) st (pre ++ post) := by
  refine ⟨pipe_skip parse st rest h, ?_⟩
  rw [List.foldl_append, List.foldl_append, List.foldl_cons,
    pipe_skip parse _ rest h]

/-- A concrete payload parser failing exactly on the body "oops". -/
def demoParse (d : List Char) : Option Json :=
  if d = sl "oops" then none
  else some (Json.obj [(sl "content", Json.str d)])

/-- Witness for claim C10: with a malformed body between two valid
RunContent data lines, the run equals the run without that line, and the
surrounding text still accumulates to "Hello". -/
theorem claim_C10_witness :
    demoParse (sl "oops") = none
    ∧ List.foldl (pipeHandle demoParse) pipe0
        [sl "event: RunContent", sl "data: Hel", sl "data: oops",
         sl "data: lo"]
      = List.foldl (pipeHandle demoParse) pipe0
        [sl "event: RunContent", sl "data: Hel", sl "data: lo"]
    ∧ (List.foldl (pipeHandle demoParse) pipe0
        [sl "event: RunContent", sl "data: Hel", sl "data: oops",
         sl "data: lo"]).acc.openText = sl "Hello" :=
  ⟨rfl,
   (claim_C10_malformed_skip demoParse pipe0
     [sl "event: RunContent", sl "data: Hel"] [sl "data: lo"]
     (sl "oops") rfl).2,
   rfl⟩

end AgnoStream
